/-
Verification of the alias-resolution and query-assembly core of the
azure-sdk-usage-agent repository (mcp-sqlServer), via a shallow embedding
of the Python sources into Lean 4.

Embedding conventions:
- Python `str` is Lean `String` (a structure over `List Char`); lowercasing,
  stripping and substring containment are given explicit executable
  definitions mirroring `str.lower`, `str.strip` and the `in` operator.
- Python dicts holding configuration are association lists with
  first-match lookup (`alistGet?`) and replace-or-append insertion
  (`alistInsert`), which matches dict semantics since Python dict keys
  are unique.
- Python sets are duplicate-free lists built with `setInsert`; all
  set-valued results are compared by membership, never by order.
-/
import Mathlib

/-! ## String primitives mirroring the Python built-ins used by the source -/

/-- Mirror of Python `str.lower()` (ASCII case folding, which covers every
string the source manipulates). -/
def lowerStr (s : String) : String :=
  String.mk (s.data.map Char.toLower)

/-- Leading- and trailing-whitespace removal on character lists. -/
def stripChars (l : List Char) : List Char :=
  ((l.dropWhile Char.isWhitespace).reverse.dropWhile Char.isWhitespace).reverse

/-- Mirror of Python `str.strip()`. -/
def stripStr (s : String) : String :=
  String.mk (stripChars s.data)

/-- Boolean prefix test on character lists. -/
def isPrefixOfB : List Char → List Char → Bool
  | [], _ => true
  | _ :: _, [] => false
  | a :: as, b :: bs => decide (a = b) && isPrefixOfB as bs

/-- Boolean infix test on character lists: does `pat` occur contiguously? -/
def containsSubB (pat : List Char) : List Char → Bool
  | [] => pat.isEmpty
  | c :: rest => isPrefixOfB pat (c :: rest) || containsSubB pat rest

/-- Mirror of the Python expression `pat in s` on strings. -/
def strContains (s pat : String) : Bool :=
  containsSubB pat.data s.data

/-- Mirror of Python `s.startswith(pat)`. -/
def startsWithB (s pat : String) : Bool :=
  isPrefixOfB pat.data s.data

/-! ## Association lists standing in for Python dicts -/

/-- First-match lookup, the semantics of `d[k]` / `d.get(k)` on a dict
represented as its (unique-keyed) item list. -/
def alistGet? {β : Type} (k : String) : List (String × β) → Option β
  | [] => none
  | (k', v) :: rest => if k = k' then some v else alistGet? k rest

/-- Replace-or-append insertion, the semantics of `d[k] = v`. -/
def alistInsert {β : Type} (k : String) (v : β) : List (String × β) → List (String × β)
  | [] => [(k, v)]
  | (k', v') :: rest => if k = k' then (k, v) :: rest else (k', v') :: alistInsert k v rest

/-- Duplicate-free insertion, the semantics of `s.add(x)` on a Python set
represented as a list. -/
def setInsert (a : String) (s : List String) : List String :=
  if a ∈ s then s else a :: s

/-! ## UniversalAliasMapper (src/mcp-sqlServer/src/product_aliases.py)

The alias configuration is the JSON document loaded at startup: a mapping
from category name to a mapping from alias key to target list. -/

/-- Category contents: alias key → list of canonical targets. -/
abbrev CategoryMap := List (String × List String)

/-- Whole configuration: category name → category contents. -/
abbrev AliasConfig := List (String × CategoryMap)

/-- Observable state of the configuration source consumed by
`_load_aliases_config`: the file may be missing, unparsable, or hold a
configuration document. -/
inductive ConfigSource : Type
  | absent
  | malformed
  | valid (cfg : AliasConfig)

/-- Failures that can arise inside the `try` block of
`_load_aliases_config`: the explicit `FileNotFoundError` raised when
`self.config_path.exists()` is false, and any `json.load` failure. -/
inductive LoadFailure : Type
  | fileNotFound
  | parseFailure
deriving DecidableEq

/-- Body of the `try` block of `_load_aliases_config` before the
`except` handler: raises on a missing file, raises on a parse failure,
otherwise produces the parsed document. -/
def load_body : ConfigSource → Except LoadFailure AliasConfig
  | .absent => .error .fileNotFound
  | .malformed => .error .parseFailure
  | .valid cfg => .ok cfg

/-- The hardcoded fallback configuration assigned by the `except` handler
of `_load_aliases_config`. -/
def fallback_config : AliasConfig :=
  [("product_aliases", []), ("os_aliases", []), ("http_method_aliases", []),
   ("provider_aliases", []), ("resource_aliases", []), ("time_aliases", []),
   ("quantity_aliases", []), ("comparison_aliases", [])]

/-- `_load_aliases_config`: the `except Exception` handler catches every
failure of the body (including the `FileNotFoundError` raised for an
absent file) and substitutes `fallback_config`. -/
def load_aliases_config (s : ConfigSource) : AliasConfig :=
  match load_body s with
  | .ok cfg => cfg
  | .error _ => fallback_config

/-- Outcome of `_load_aliases_config` as seen by its caller: since the
method catches every exception internally, it always returns normally. -/
def load_result (s : ConfigSource) : Except LoadFailure AliasConfig :=
  .ok (load_aliases_config s)

/-- Reverse index: product name → set of alias keys (`product_to_aliases`). -/
abbrev ReverseIndex := List (String × List String)

/-- Lookup in the reverse index, defaulting to the empty set
(`self.product_to_aliases.get(product_name, set())`). -/
def revGet (rev : ReverseIndex) (p : String) : List String :=
  (alistGet? p rev).getD []

/-- One inner step of `_build_reverse_mappings` / `add_alias`:
`self.product_to_aliases.setdefault(product, set()).add(alias)` spelled
out as in the source (`if product not in ...: ... = set()` then `.add`). -/
def revAdd (rev : ReverseIndex) (p aliasKey : String) : ReverseIndex :=
  alistInsert p (setInsert aliasKey (revGet rev p)) rev

/-- Register one alias under each of its targets, in source order
(`for product in products: ...` / `for target in targets: ...`). -/
def revAddAll (rev : ReverseIndex) (aliasKey : String) : List String → ReverseIndex
  | [] => rev
  | p :: rest => revAddAll (revAdd rev p aliasKey) aliasKey rest

/-- `_build_reverse_mappings`: fold every `(alias, products)` entry of the
`product_aliases` category into the reverse index. -/
def buildReverse : CategoryMap → ReverseIndex → ReverseIndex
  | [], rev => rev
  | (aliasKey, products) :: rest, rev => buildReverse rest (revAddAll rev aliasKey products)

/-- In-memory state of a `UniversalAliasMapper`: the primary configuration
and the derived `product_to_aliases` reverse index. -/
structure MapperState : Type where
  aliasesConfig : AliasConfig
  productToAliases : ReverseIndex
deriving DecidableEq

/-- `__init__`: load the configuration, then build the reverse index from
the `product_aliases` category starting from an empty dict. -/
def initState (cfg : AliasConfig) : MapperState :=
  { aliasesConfig := cfg,
    productToAliases := buildReverse ((alistGet? "product_aliases" cfg).getD []) [] }

/-- `get_aliases_for_category` / `self.aliases_config.get(category, {})`. -/
def get_category (st : MapperState) (category : String) : CategoryMap :=
  (alistGet? category st.aliasesConfig).getD []

/-- `get_aliases_for_product`. -/
def get_aliases_for_product (st : MapperState) (p : String) : List String :=
  revGet st.productToAliases p

/-- `add_alias(category, alias, targets)`: create the category if absent,
store `targets` under the lowercased alias key (overwriting), and — only
for `product_aliases` — add the lowercased alias to the reverse-index set
of every target. The `save_to_file` side effect is I/O and not modelled. -/
def add_alias (st : MapperState) (category aliasKey : String) (targets : List String) :
    MapperState :=
  { aliasesConfig :=
      alistInsert category (alistInsert (lowerStr aliasKey) targets (get_category st category))
        st.aliasesConfig,
    productToAliases :=
      if category = "product_aliases" then
        revAddAll st.productToAliases (lowerStr aliasKey) targets
      else st.productToAliases }

/-- Mutation operations available on a mapper after construction. -/
inductive Op : Type
  | add (category aliasKey : String) (targets : List String)

/-- Apply a sequence of mutations to a mapper state. -/
def applyOps (st : MapperState) : List Op → MapperState
  | [] => st
  | .add c a T :: rest => applyOps (add_alias st c a T) rest

/-- Inner accumulation of `find_matches_by_category`: for each
`(alias, targets)` pair whose lowercased alias occurs in the lowercased
query, contribute the targets passing the optional allow-list filter. -/
def catCollect (ql : String) (avail : Option (List String)) : CategoryMap → List String
  | [] => []
  | (aliasKey, targets) :: rest =>
      (if strContains ql (lowerStr aliasKey) then
        targets.filter (fun t =>
          match avail with
          | none => true
          | some vs => decide (t ∈ vs))
      else []) ++ catCollect ql avail rest

/-- `find_matches_by_category(query_text, category, available_values)`.
The Python function accumulates into a set and returns `list(...)`; the
embedding accumulates in iteration order and deduplicates, which has the
same membership. -/
def find_matches_by_category (queryText category : String) (cfg : AliasConfig)
    (avail : Option (List String)) : List String :=
  (catCollect (lowerStr queryText) avail ((alistGet? category cfg).getD [])).dedup

/-- Alias phase of `find_products_by_query`: only products present in
`available_products` are admitted. -/
def paCollect (ql : String) (avail : List String) : CategoryMap → List String
  | [] => []
  | (aliasKey, products) :: rest =>
      (if strContains ql (lowerStr aliasKey) then
        products.filter (fun p => decide (p ∈ avail))
      else []) ++ paCollect ql avail rest

/-- `find_products_by_query(query_text, available_products)`: direct
case-insensitive name containment first; only when that phase matches
nothing, fall back to the `product_aliases` category. -/
def find_products_by_query (queryText : String) (avail : List String) (cfg : AliasConfig) :
    List String :=
  let ql := lowerStr queryText
  let direct := avail.filter (fun p => strContains ql (lowerStr p))
  if direct ≠ [] then direct.dedup
  else (paCollect ql avail ((alistGet? "product_aliases" cfg).getD [])).dedup

/-! ## SimpleMCPTools (src/mcp-sqlServer/src/simple_mcp_tools.py) -/

/-- Result of `execute_sql_query_direct`: either one of the two early
error returns (no SQL round-trip happens), or the dispatch of the query
string to the SQL execution collaborator
(`self.sql_client.execute_query_via_rest(sql_query)`). -/
inductive SqlOutcome : Type
  | errorResult (msg : String)
  | executed (q : String)
deriving DecidableEq

/-- Whether a `SqlOutcome` is one of the refusal results. -/
def sql_outcome_is_error : SqlOutcome → Bool
  | .errorResult _ => true
  | .executed _ => false

/-- The denylist scanned by `execute_sql_query_direct`. -/
def dangerous_keywords : List String :=
  ["drop", "delete", "insert", "update", "create", "alter", "truncate"]

/-- `execute_sql_query_direct(sql_query)` up to the hand-off to the SQL
client: lowercase and strip the query, refuse non-SELECT text, refuse any
denylist keyword occurrence, otherwise execute. -/
def execute_sql_query_direct (sqlQuery : String) : SqlOutcome :=
  let sqlLower := stripStr (lowerStr sqlQuery)
  if !startsWithB sqlLower "select" then
    .errorResult "Only SELECT queries are allowed"
  else if dangerous_keywords.any (fun kw => strContains sqlLower kw) then
    .errorResult "Query contains prohibited operations"
  else
    .executed sqlQuery

/-- The guard of `execute_sql_query_direct`: both security checks pass. -/
def sql_query_allowed (sqlQuery : String) : Bool :=
  let sqlLower := stripStr (lowerStr sqlQuery)
  startsWithB sqlLower "select" && !(dangerous_keywords.any (fun kw => strContains sqlLower kw))

/-- Left-to-right, non-overlapping replacement of every occurrence of a
non-empty pattern: the semantics of Python `str.replace` as used with the
pattern `"SELECT"`. The fuel argument is the length of the subject. -/
def replaceAllAux (rep pat : List Char) : Nat → List Char → List Char
  | 0, s => s
  | _ + 1, [] => []
  | fuel + 1, c :: rest =>
      if pat ≠ [] ∧ isPrefixOfB pat (c :: rest) = true then
        rep ++ replaceAllAux rep pat fuel ((c :: rest).drop pat.length)
      else
        c :: replaceAllAux rep pat fuel rest

/-- Mirror of `s.replace(pat, rep)` for non-empty `pat`. -/
def strReplace (s pat rep : String) : String :=
  String.mk (replaceAllAux rep.data pat.data s.data.length s.data)

/-- SQL assembly of `suggest_query_structure` (lines 233–243): join the
columns (or `*`), append WHERE unless the clause is the tautology `1=1`,
append the order clause when non-empty, and splice a non-empty limit
clause in after `SELECT` via `str.replace`. -/
def suggested_sql (tableName : String) (cols : List String)
    (whereC orderC limitC : String) : String :=
  let columnsStr := if cols ≠ [] then String.intercalate ", " cols else "*"
  let s0 := "SELECT " ++ columnsStr ++ " FROM " ++ tableName
  let s1 := if whereC ≠ "1=1" then s0 ++ " WHERE " ++ whereC else s0
  let s2 := if orderC ≠ "" then s1 ++ " " ++ orderC else s1
  if limitC ≠ "" then strReplace s2 "SELECT" ("SELECT " ++ limitC) else s2

/-! ## EnhancedAliasMapper (src/mcp-sqlServer/src/enhanced_aliases.py)

The hardcoded alias dictionaries are duck-typed in the source: the
product/os/http/provider/resource maps hold lists of strings, while
`time_aliases` and `quantity_aliases` hold single strings. `PyTargets`
records that dynamic distinction. -/

/-- A dict value of an `EnhancedAliasMapper` alias table: either a Python
list of strings or a bare Python string. -/
inductive PyTargets : Type
  | strs (l : List String)
  | str (s : String)
deriving DecidableEq

/-- `self.product_aliases` of `EnhancedAliasMapper.__init__`. -/
def enhancedProductAliases : List (String × PyTargets) :=
  [("js", .strs ["JavaScript", "JavaScript (Node.JS)", "JavaScript RLC"]),
   ("javascript", .strs ["JavaScript", "JavaScript (Node.JS)", "JavaScript RLC"]),
   ("node", .strs ["JavaScript (Node.JS)"]),
   ("nodejs", .strs ["JavaScript (Node.JS)"]),
   ("node.js", .strs ["JavaScript (Node.JS)"]),
   ("rlc", .strs ["JavaScript RLC"]),
   ("rest", .strs ["JavaScript RLC"]),
   (".net", .strs [".Net Code-gen", ".Net Fluent"]),
   ("dotnet", .strs [".Net Code-gen", ".Net Fluent"]),
   ("csharp", .strs [".Net Code-gen", ".Net Fluent"]),
   ("c#", .strs [".Net Code-gen", ".Net Fluent"]),
   ("net", .strs [".Net Code-gen", ".Net Fluent"]),
   ("cs", .strs [".Net Code-gen", ".Net Fluent"]),
   ("java", .strs ["Java Fluent Lite", "Java Fluent Premium"]),
   ("jdk", .strs ["Java Fluent Lite", "Java Fluent Premium"]),
   ("python", .strs ["Python-SDK"]),
   ("py", .strs ["Python-SDK"]),
   ("python3", .strs ["Python-SDK"]),
   ("pip", .strs ["Python-SDK"]),
   ("go", .strs ["Go-SDK"]),
   ("golang", .strs ["Go-SDK"]),
   ("gopher", .strs ["Go-SDK"]),
   ("php", .strs ["PHP-SDK"]),
   ("ruby", .strs ["Ruby-SDK"]),
   ("rb", .strs ["Ruby-SDK"]),
   ("rust", .strs ["Rust"]),
   ("rs", .strs ["Rust"]),
   ("rustlang", .strs ["Rust"]),
   ("cli", .strs ["AzureCLI"]),
   ("azure-cli", .strs ["AzureCLI"]),
   ("az", .strs ["AzureCLI"]),
   ("command-line", .strs ["AzureCLI"]),
   ("powershell", .strs ["AzurePowershell"]),
   ("ps", .strs ["AzurePowershell"]),
   ("pwsh", .strs ["AzurePowershell"]),
   ("ps1", .strs ["AzurePowershell"]),
   ("terraform", .strs ["Terraform"]),
   ("tf", .strs ["Terraform"]),
   ("hcl", .strs ["Terraform"]),
   ("ansible", .strs ["Ansible"]),
   ("playbook", .strs ["Ansible"]),
   ("vscode", .strs ["VS Code Azure Extension"]),
   ("vs-code", .strs ["VS Code Azure Extension"]),
   ("visual-studio-code", .strs ["VS Code Azure Extension"]),
   ("code", .strs ["VS Code Azure Extension"])]

/-- `self.os_aliases` of `EnhancedAliasMapper.__init__`. -/
def enhancedOsAliases : List (String × PyTargets) :=
  [("windows", .strs ["Windows"]), ("win", .strs ["Windows"]),
   ("microsoft", .strs ["Windows"]), ("ms", .strs ["Windows"]),
   ("win10", .strs ["Windows"]), ("win11", .strs ["Windows"]),
   ("linux", .strs ["Linux"]), ("ubuntu", .strs ["Linux"]),
   ("debian", .strs ["Linux"]), ("centos", .strs ["Linux"]),
   ("rhel", .strs ["Linux"]), ("redhat", .strs ["Linux"]),
   ("fedora", .strs ["Linux"]), ("suse", .strs ["Linux"]),
   ("unix", .strs ["Linux"]),
   ("macos", .strs ["macOS"]), ("mac", .strs ["macOS"]),
   ("osx", .strs ["macOS"]), ("apple", .strs ["macOS"]),
   ("darwin", .strs ["macOS"])]

/-- `self.http_method_aliases` of `EnhancedAliasMapper.__init__`. -/
def enhancedHttpMethodAliases : List (String × PyTargets) :=
  [("get", .strs ["GET"]), ("read", .strs ["GET"]), ("fetch", .strs ["GET"]),
   ("retrieve", .strs ["GET"]), ("query", .strs ["GET"]),
   ("post", .strs ["POST"]), ("create", .strs ["POST"]), ("add", .strs ["POST"]),
   ("insert", .strs ["POST"]), ("new", .strs ["POST"]),
   ("put", .strs ["PUT"]), ("update", .strs ["PUT"]), ("modify", .strs ["PUT"]),
   ("change", .strs ["PUT"]), ("edit", .strs ["PUT"]),
   ("delete", .strs ["DELETE"]), ("remove", .strs ["DELETE"]),
   ("del", .strs ["DELETE"]), ("destroy", .strs ["DELETE"]),
   ("patch", .strs ["PATCH"]), ("partial", .strs ["PATCH"])]

/-- `self.provider_aliases` of `EnhancedAliasMapper.__init__`. -/
def enhancedProviderAliases : List (String × PyTargets) :=
  [("compute", .strs ["Microsoft.Compute"]), ("vm", .strs ["Microsoft.Compute"]),
   ("virtual-machine", .strs ["Microsoft.Compute"]), ("server", .strs ["Microsoft.Compute"]),
   ("storage", .strs ["Microsoft.Storage"]), ("blob", .strs ["Microsoft.Storage"]),
   ("file", .strs ["Microsoft.Storage"]), ("disk", .strs ["Microsoft.Storage"]),
   ("network", .strs ["Microsoft.Network"]), ("networking", .strs ["Microsoft.Network"]),
   ("vnet", .strs ["Microsoft.Network"]), ("subnet", .strs ["Microsoft.Network"]),
   ("nsg", .strs ["Microsoft.Network"]),
   ("web", .strs ["Microsoft.Web"]), ("webapp", .strs ["Microsoft.Web"]),
   ("app-service", .strs ["Microsoft.Web"]), ("website", .strs ["Microsoft.Web"]),
   ("sql", .strs ["Microsoft.Sql"]), ("database", .strs ["Microsoft.Sql"]),
   ("db", .strs ["Microsoft.Sql"]), ("mysql", .strs ["Microsoft.DBforMySQL"]),
   ("postgresql", .strs ["Microsoft.DBforPostgreSQL"]),
   ("cosmos", .strs ["Microsoft.DocumentDB"]), ("cosmosdb", .strs ["Microsoft.DocumentDB"]),
   ("container", .strs ["Microsoft.ContainerService"]),
   ("aks", .strs ["Microsoft.ContainerService"]),
   ("kubernetes", .strs ["Microsoft.ContainerService"]),
   ("k8s", .strs ["Microsoft.ContainerService"]),
   ("keyvault", .strs ["Microsoft.KeyVault"]), ("vault", .strs ["Microsoft.KeyVault"]),
   ("secret", .strs ["Microsoft.KeyVault"]), ("certificate", .strs ["Microsoft.KeyVault"])]

/-- `self.resource_aliases` of `EnhancedAliasMapper.__init__`. -/
def enhancedResourceAliases : List (String × PyTargets) :=
  [("vm", .strs ["virtualMachines"]), ("virtual-machine", .strs ["virtualMachines"]),
   ("server", .strs ["virtualMachines"]), ("instance", .strs ["virtualMachines"]),
   ("storage-account", .strs ["storageAccounts"]), ("blob", .strs ["storageAccounts"]),
   ("storage", .strs ["storageAccounts"]),
   ("vnet", .strs ["virtualNetworks"]), ("virtual-network", .strs ["virtualNetworks"]),
   ("network", .strs ["virtualNetworks"]), ("subnet", .strs ["subnets"]),
   ("nsg", .strs ["networkSecurityGroups"]), ("security-group", .strs ["networkSecurityGroups"]),
   ("webapp", .strs ["webApps"]), ("web-app", .strs ["webApps"]),
   ("app-service", .strs ["webApps"]), ("website", .strs ["webApps"]),
   ("sql-server", .strs ["sqlServers"]), ("database", .strs ["databases"]),
   ("db", .strs ["databases"]),
   ("aks", .strs ["kubernetesClusters"]), ("kubernetes", .strs ["kubernetesClusters"]),
   ("k8s", .strs ["kubernetesClusters"]), ("cluster", .strs ["kubernetesClusters"]),
   ("keyvault", .strs ["keyVaults"]), ("vault", .strs ["keyVaults"])]

/-- `self.time_aliases` of `EnhancedAliasMapper.__init__` — every value is
a bare string, not a list. -/
def enhancedTimeAliases : List (String × PyTargets) :=
  [("today", .str "2025-08-28"),
   ("this-month", .str "2025-08"), ("current-month", .str "2025-08"),
   ("last-month", .str "2025-07"), ("previous-month", .str "2025-07"),
   ("this-year", .str "2025"), ("current-year", .str "2025"),
   ("last-year", .str "2024"), ("previous-year", .str "2024"),
   ("recent", .str "ORDER BY Month DESC"), ("latest", .str "ORDER BY Month DESC"),
   ("newest", .str "ORDER BY Month DESC"), ("oldest", .str "ORDER BY Month ASC"),
   ("earliest", .str "ORDER BY Month ASC")]

/-- `self.quantity_aliases` of `EnhancedAliasMapper.__init__` — every
value is a bare string, not a list. -/
def enhancedQuantityAliases : List (String × PyTargets) :=
  [("top", .str "TOP"), ("first", .str "TOP"), ("limit", .str "TOP"),
   ("most", .str "ORDER BY [count_column] DESC"),
   ("highest", .str "ORDER BY [count_column] DESC"),
   ("maximum", .str "ORDER BY [count_column] DESC"),
   ("least", .str "ORDER BY [count_column] ASC"),
   ("lowest", .str "ORDER BY [count_column] ASC"),
   ("minimum", .str "ORDER BY [count_column] ASC"),
   ("total", .str "SUM([count_column])"), ("sum", .str "SUM([count_column])"),
   ("count", .str "COUNT(*)"), ("number", .str "COUNT(*)"),
   ("average", .str "AVG([count_column])"), ("avg", .str "AVG([count_column])")]

/-- The dynamic dispatch `getattr(self, f"{category}_aliases", {})` of
`EnhancedAliasMapper.find_matches`. -/
def enhancedAliasMap : String → List (String × PyTargets)
  | "product" => enhancedProductAliases
  | "os" => enhancedOsAliases
  | "http_method" => enhancedHttpMethodAliases
  | "provider" => enhancedProviderAliases
  | "resource" => enhancedResourceAliases
  | "time" => enhancedTimeAliases
  | "quantity" => enhancedQuantityAliases
  | _ => []

/-- What `matches.extend(targets)` appends: the elements of a list value,
or the individual characters (as one-character strings) of a string
value, since iterating a Python string yields its characters. -/
def pyTargetsList : PyTargets → List String
  | .strs l => l
  | .str s => s.data.map Char.toString

/-- Accumulation loop of `EnhancedAliasMapper.find_matches` in iteration
order. -/
def fmCollect (textLower : String) : List (String × PyTargets) → List String
  | [] => []
  | (aliasKey, tg) :: rest =>
      (if strContains textLower aliasKey then pyTargetsList tg else []) ++
        fmCollect textLower rest

/-- `EnhancedAliasMapper.find_matches(text, category)`: lowercase the
text, extend the match list for every alias occurring in it, and
deduplicate (`list(set(matches))`). -/
def enhanced_find_matches (text category : String) : List String :=
  (fmCollect (lowerStr text) (enhancedAliasMap category)).dedup

/-- Whether an alias-table entry holds a bare-string value. -/
def is_str_target : String × PyTargets → Bool
  | (_, .str _) => true
  | (_, .strs _) => false

/-! ## AIQueryParser (src/mcp-sqlServer/src/ai_query_parser.py) -/

/-- Table metadata supplied by the schema collaborator: name and ordered
column list (the description and per-column metadata play no role in the
parsing logic under verification). -/
structure TableInfo : Type where
  name : String
  columns : List String
deriving DecidableEq

/-- Modelled from the spec: `SchemaLoader.get_table_info(name)` of the
schema collaborator (its module is not among the provided sources) —
"get_table_info(name) -> TableSchema | absent", resolving a table by its
name among the enabled tables. -/
def get_table_info (tables : List TableInfo) (name : String) : Option TableInfo :=
  tables.find? (fun t => t.name == name)

/-- Table-selection loop of `fallback_rule_based_parsing`: walks the
enabled tables and picks the current table's name as soon as the
lowercased question mentions one of the keywords (the condition does not
inspect the table itself). -/
def selectTableName (ql : String) : List TableInfo → Option String
  | [] => none
  | t :: rest =>
      if (["product", "customer", "usage"] : List String).any (fun kw => strContains ql kw) then
        some t.name
      else selectTableName ql rest

/-- Tail of the regular expression `top\s+(\d+)`: one or more whitespace
characters followed by one or more digits, returning the digit run. -/
def wsThenDigits (l : List Char) : Option (List Char) :=
  let ws := l.takeWhile Char.isWhitespace
  if ws.isEmpty then none
  else
    let ds := (l.drop ws.length).takeWhile Char.isDigit
    if ds.isEmpty then none else some ds

/-- `re.search(r"top\s+(\d+)", query_lower)`: scan for the leftmost
position where `top` is followed by whitespace and digits; on a failed
completion the scan resumes one character later. -/
def searchTop : List Char → Option (List Char)
  | [] => none
  | c :: rest =>
      if c = 't' then
        match rest with
        | 'o' :: 'p' :: rest2 =>
            match wsThenDigits rest2 with
            | some ds => some ds
            | none => searchTop rest
        | _ => searchTop rest
      else searchTop rest

/-- The dict returned by the successful branch of
`fallback_rule_based_parsing`. -/
structure FallbackResult : Type where
  table_name : String
  columns : List String
  where_clause : String
  order_clause : String
  limit_clause : String
  ai_parsed : Bool
  fallback_used : Bool
deriving DecidableEq

/-- `fallback_rule_based_parsing(user_question)`: error when the schema
reports no enabled tables; otherwise table/column heuristics, the
hardcoded `this month` WHERE literal, the `top` ORDER heuristic and the
`top N` LIMIT extraction. -/
def fallback_rule_based_parsing (tables : List TableInfo) (userQuestion : String) :
    Except String FallbackResult :=
  match tables with
  | [] => .error "No enabled tables found"
  | t0 :: rest =>
      let ql := lowerStr userQuestion
      let tableName := (selectTableName ql (t0 :: rest)).getD t0.name
      let columns :=
        match get_table_info (t0 :: rest) tableName with
        | some ti =>
            let preferred := (["Month", "Product", "RequestCount"] : List String).filter
              (fun c => decide (c ∈ ti.columns))
            if preferred = [] then ti.columns.take 3 else preferred
        | none => ["*"]
      let whereClause :=
        if strContains ql "this month" then "Month LIKE \x272025-08%\x27" else "1=1"
      let orderClause :=
        if strContains ql "top" then "ORDER BY RequestCount DESC" else ""
      let limitClause :=
        match searchTop ql.data with
        | some ds => "TOP " ++ String.mk ds
        | none => ""
      .ok { table_name := tableName, columns := columns, where_clause := whereClause,
            order_clause := orderClause, limit_clause := limitClause,
            ai_parsed := false, fallback_used := true }

/-- Observable outcome of the `asyncio.run(self.parse_with_ai(...))` call
inside `parse_user_query`: either an exception propagated out of the
attempt, or a returned dict summarized by whether it carries an `error`
key and by its optional `confidence` value. -/
inductive AIAttempt : Type
  | raised
  | returned (hasError : Bool) (confidence : Option ℚ)
deriving DecidableEq

/-- What `parse_user_query` returns: the AI dict passed through, the
fallback dict, or the fallback's own error dict. -/
inductive ParseOutcome : Type
  | aiResult (hasError : Bool) (confidence : Option ℚ)
  | fallbackOk (r : FallbackResult)
  | fallbackError (msg : String)
deriving DecidableEq

/-- `parse_user_query(user_question)`: with AI enabled, accept the AI
result only when it has no `error` key and `confidence >= 0.7`
(missing confidence defaults to 0); in every other case — including an
exception from the attempt — run the rule-based fallback. -/
def parse_user_query (useAI : Bool) (ai : AIAttempt) (tables : List TableInfo)
    (userQuestion : String) : ParseOutcome :=
  let fb :=
    match fallback_rule_based_parsing tables userQuestion with
    | .ok r => ParseOutcome.fallbackOk r
    | .error m => ParseOutcome.fallbackError m
  if useAI then
    match ai with
    | .raised => fb
    | .returned hasError conf =>
        if hasError = false ∧ (7 : ℚ) / 10 ≤ conf.getD 0 then .aiResult hasError conf
        else fb
  else fb

/-- An AI attempt that fails in the sense of claim C8: an exception
(timeout, transport failure, malformed response) or a returned dict with
an `error` key or confidence below 0.7. -/
def aiFails : AIAttempt → Prop
  | .raised => True
  | .returned hasError conf => hasError = true ∨ conf.getD 0 < (7 : ℚ) / 10

instance : DecidablePred aiFails := by
  intro ai
  cases ai with
  | raised => exact isTrue trivial
  | returned hasError conf =>
      simp only [aiFails]
      infer_instance

/-- Whether a parse outcome is a fallback dict carrying
`fallback_used == True` and `ai_parsed == False`. -/
def carries_fallback_flags : ParseOutcome → Bool
  | .fallbackOk r => r.fallback_used && !r.ai_parsed
  | _ => false

/-- Modelled from the spec (claim C9's reading): a WHERE clause built from
the year and month current at call time — `Month LIKE
'<current-year>-<current-month>%'` when the text mentions "this month",
the tautology otherwise. -/
def rule_where_spec (year month : Nat) (text : String) : String :=
  if strContains (lowerStr text) "this month" then
    "Month LIKE \x27" ++ toString year ++ "-" ++
      (if month < 10 then "0" ++ toString month else toString month) ++ "%\x27"
  else "1=1"

/-- Forward reverse-index consistency: every alias currently mapping to a
product in the `product_aliases` category appears in that product's
reverse-index entry. -/
def RevComplete (st : MapperState) : Prop :=
  ∀ (aliasKey : String) (T : List String) (p : String),
    alistGet? aliasKey (get_category st "product_aliases") = some T → p ∈ T →
    aliasKey ∈ get_aliases_for_product st p

/-- Mapper state reached from an empty configuration by storing alias `x`
for product `P` and then overwriting it to target product `Q`. -/
def overwrittenState : MapperState :=
  applyOps (initState [])
    [Op.add "product_aliases" "x" ["P"], Op.add "product_aliases" "x" ["Q"]]

/-- Single-entry configuration used to instantiate the C1 theorem. -/
def demoOsConfig : AliasConfig :=
  [("os_aliases", [("win", ["Windows"])])]

/-- Single-table schema used to instantiate the C8 theorem. -/
def demoTablesParse : List TableInfo :=
  [{ name := "ProductUsage", columns := ["Month", "Product", "RequestCount"] }]

/-- Single-table schema used for the C9 statements. -/
def demoTablesWhere : List TableInfo :=
  [{ name := "UsageSummary", columns := ["Month", "Product", "RequestCount"] }]

/-! ## Theorems -/

theorem isPrefixOfB_refl : ∀ l : List Char, isPrefixOfB l l = true := by
  intro l
  induction l with
  | nil => rfl
  | cons a as ih => simp [isPrefixOfB, ih]

theorem containsSubB_refl (l : List Char) : containsSubB l l = true := by
  cases l with
  | nil => rfl
  | cons c rest => simp [containsSubB, isPrefixOfB_refl]

theorem strContains_self (s : String) : strContains s s = true :=
  containsSubB_refl s.data

theorem alistGet?_insert_self {β : Type} (k : String) (v : β) (l : List (String × β)) :
    alistGet? k (alistInsert k v l) = some v := by
  induction l with
  | nil => simp [alistInsert, alistGet?]
  | cons hd tl ih =>
    obtain ⟨k', v'⟩ := hd
    by_cases h : k = k'
    · simp [alistInsert, alistGet?, h]
    · simp [alistInsert, alistGet?, h, ih]

theorem alistGet?_insert_ne {β : Type} {k k' : String} (h : k ≠ k') (v : β)
    (l : List (String × β)) :
    alistGet? k (alistInsert k' v l) = alistGet? k l := by
  induction l with
  | nil => simp [alistInsert, alistGet?, h]
  | cons hd tl ih =>
    obtain ⟨k'', v''⟩ := hd
    by_cases h' : k' = k''
    · subst h'
      simp [alistInsert, alistGet?, h]
    · by_cases h'' : k = k''
      · simp [alistInsert, alistGet?, h', h'']
      · simp [alistInsert, alistGet?, h', h'', ih]

theorem alistGet?_mem {β : Type} {k : String} {v : β} {l : List (String × β)}
    (h : alistGet? k l = some v) : (k, v) ∈ l := by
  induction l with
  | nil => simp [alistGet?] at h
  | cons hd tl ih =>
    obtain ⟨k', v'⟩ := hd
    by_cases hk : k = k'
    · subst hk
      simp [alistGet?] at h
      simp [h]
    · simp [alistGet?, hk] at h
      exact List.mem_cons_of_mem _ (ih h)

theorem setInsert_mem_self (a : String) (s : List String) : a ∈ setInsert a s := by
  by_cases h : a ∈ s <;> simp [setInsert, h]

theorem setInsert_mem_mono {x : String} {s : List String} (a : String) (h : x ∈ s) :
    x ∈ setInsert a s := by
  by_cases ha : a ∈ s <;> simp [setInsert, ha, h]

theorem get_category_add_alias (st : MapperState) (c aliasKey : String) (T : List String) :
    get_category (add_alias st c aliasKey T) c
      = alistInsert (lowerStr aliasKey) T (get_category st c) := by
  simp [get_category, add_alias, alistGet?_insert_self]

/-- C6: `add_alias(category, alias, targets)` stores `targets` under the
lowercased alias key, overwriting any existing entry with no merging, so
a second identical call leaves the category mapping the lowercased alias
to exactly the given target list (idempotent, last write wins). -/
theorem add_alias_last_write_wins (st : MapperState) (c aliasKey : String) (T : List String) :
    alistGet? (lowerStr aliasKey) (get_category (add_alias st c aliasKey T) c) = some T
    ∧ alistGet? (lowerStr aliasKey)
        (get_category (add_alias (add_alias st c aliasKey T) c aliasKey T) c) = some T := by
  constructor
  · rw [get_category_add_alias]
    exact alistGet?_insert_self _ _ _
  · rw [get_category_add_alias]
    exact alistGet?_insert_self _ _ _

/-- C7: the assembled SELECT string places a non-empty limit clause right
after the SELECT keyword and omits the WHERE segment for the tautology
`1=1`: the two examples of the spec evaluate as claimed. -/
theorem suggested_sql_examples :
    suggested_sql "T" ["A", "B"] "1=1" "" "TOP 5" = "SELECT TOP 5 A, B FROM T"
    ∧ suggested_sql "T" ["*"] "X > 1" "ORDER BY X DESC" ""
        = "SELECT * FROM T WHERE X > 1 ORDER BY X DESC" := by
  constructor <;> rfl

/-- C2: `execute_sql_query_direct` returns an error result — and performs
no call to the SQL execution collaborator — exactly when the lowercased,
stripped query fails the SELECT-prefix check or contains a denylist
keyword; the client is invoked (with the original query) only when both
checks pass. -/
theorem execute_sql_query_direct_guard (q : String) :
    sql_outcome_is_error (execute_sql_query_direct q) = !(sql_query_allowed q)
    ∧ (sql_query_allowed q = true → execute_sql_query_direct q = SqlOutcome.executed q) := by
  by_cases h1 : startsWithB (stripStr (lowerStr q)) "select" = true
  · by_cases h2 :
      dangerous_keywords.any (fun kw => strContains (stripStr (lowerStr q)) kw) = true
    · simp [execute_sql_query_direct, sql_query_allowed, sql_outcome_is_error, h1, h2]
    · simp [execute_sql_query_direct, sql_query_allowed, sql_outcome_is_error, h1, h2]
  · simp [execute_sql_query_direct, sql_query_allowed, sql_outcome_is_error, h1]

/-- Witness for C2: `"DROP TABLE X"` is refused. -/
theorem execute_sql_query_direct_guard_witness :
    sql_outcome_is_error (execute_sql_query_direct "DROP TABLE X") = true := by
  have h := (execute_sql_query_direct_guard "DROP TABLE X").1
  rw [h]
  decide

/-- C3 amended: `_load_aliases_config` never propagates a failure — on an
absent source just as on a parse failure it returns the hardcoded
empty-but-structurally-valid configuration, in which every required
category is present as an empty mapping. -/
theorem load_degrades_on_failure (s : ConfigSource) (e : LoadFailure)
    (h : load_body s = Except.error e) :
    load_result s = Except.ok fallback_config
    ∧ alistGet? "product_aliases" fallback_config = some []
    ∧ alistGet? "os_aliases" fallback_config = some []
    ∧ alistGet? "http_method_aliases" fallback_config = some [] := by
  refine ⟨?_, by decide, by decide, by decide⟩
  simp [load_result, load_aliases_config, h]

/-- Witness for C3: the absent-source case of the amended statement. -/
theorem load_degrades_on_failure_witness :
    load_result ConfigSource.absent = Except.ok fallback_config
    ∧ alistGet? "product_aliases" fallback_config = some []
    ∧ alistGet? "os_aliases" fallback_config = some []
    ∧ alistGet? "http_method_aliases" fallback_config = some [] :=
  load_degrades_on_failure ConfigSource.absent LoadFailure.fileNotFound rfl

/-- Counterexample for C3 as stated: when the configuration source is
absent, load does not fail with `ConfigNotFound` — the raised
`FileNotFoundError` is caught by the method's own handler and the
fallback configuration is returned normally. -/
theorem load_absent_no_failure_cex :
    load_result ConfigSource.absent = Except.ok fallback_config := rfl

theorem revGet_revAdd_self (rev : ReverseIndex) (p aliasKey : String) :
    aliasKey ∈ revGet (revAdd rev p aliasKey) p := by
  unfold revAdd revGet
  rw [alistGet?_insert_self]
  exact setInsert_mem_self _ _

theorem revGet_revAdd_mono {x q : String} {rev : ReverseIndex} (p aliasKey : String)
    (h : x ∈ revGet rev q) : x ∈ revGet (revAdd rev p aliasKey) q := by
  by_cases hpq : q = p
  · subst hpq
    unfold revAdd revGet
    rw [alistGet?_insert_self]
    exact setInsert_mem_mono _ h
  · unfold revAdd revGet
    rw [alistGet?_insert_ne hpq]
    exact h

theorem revGet_revAddAll_mono (aliasKey : String) (ps : List String) :
    ∀ (rev : ReverseIndex) {x q : String}, x ∈ revGet rev q →
      x ∈ revGet (revAddAll rev aliasKey ps) q := by
  induction ps with
  | nil => intro rev x q h; exact h
  | cons p rest ih =>
      intro rev x q h
      exact ih _ (revGet_revAdd_mono p aliasKey h)

theorem revGet_revAddAll_self (aliasKey : String) (ps : List String) :
    ∀ (rev : ReverseIndex) {p : String}, p ∈ ps →
      aliasKey ∈ revGet (revAddAll rev aliasKey ps) p := by
  induction ps with
  | nil => intro rev p h; simp at h
  | cons p0 rest ih =>
      intro rev p h
      rcases List.mem_cons.mp h with h | h
      · subst h
        exact revGet_revAddAll_mono aliasKey rest _ (revGet_revAdd_self rev p aliasKey)
      · exact ih _ h

theorem revGet_buildReverse_mono (pa : CategoryMap) :
    ∀ (rev : ReverseIndex) {x q : String}, x ∈ revGet rev q →
      x ∈ revGet (buildReverse pa rev) q := by
  induction pa with
  | nil => intro rev x q h; exact h
  | cons e rest ih =>
      obtain ⟨aliasKey, products⟩ := e
      intro rev x q h
      exact ih _ (revGet_revAddAll_mono aliasKey products rev h)

theorem revGet_buildReverse_complete (pa : CategoryMap) :
    ∀ (rev : ReverseIndex) {aliasKey : String} {T : List String} {p : String},
      (aliasKey, T) ∈ pa → p ∈ T →
      aliasKey ∈ revGet (buildReverse pa rev) p := by
  induction pa with
  | nil => intro rev a T p h hp; simp at h
  | cons e rest ih =>
      obtain ⟨a0, T0⟩ := e
      intro rev a T p hmem hp
      rcases List.mem_cons.mp hmem with h | h
      · obtain ⟨h1, h2⟩ := Prod.mk.inj h
        subst h1
        subst h2
        exact revGet_buildReverse_mono rest _ (revGet_revAddAll_self a T rev hp)
      · exact ih _ h hp

theorem revComplete_initState (cfg : AliasConfig) : RevComplete (initState cfg) := by
  intro aliasKey T p hget hp
  have hmem : (aliasKey, T) ∈ (alistGet? "product_aliases" cfg).getD [] := alistGet?_mem hget
  exact revGet_buildReverse_complete _ _ hmem hp

theorem add_alias_productToAliases_pa (st : MapperState) (aliasKey : String)
    (T : List String) :
    (add_alias st "product_aliases" aliasKey T).productToAliases
      = revAddAll st.productToAliases (lowerStr aliasKey) T := by
  simp [add_alias]

theorem add_alias_productToAliases_ne (st : MapperState) {c : String}
    (hc : ¬ c = "product_aliases") (aliasKey : String) (T : List String) :
    (add_alias st c aliasKey T).productToAliases = st.productToAliases := by
  simp [add_alias, hc]

theorem revComplete_add_alias {st : MapperState} (h : RevComplete st)
    (c aliasKey : String) (T : List String) :
    RevComplete (add_alias st c aliasKey T) := by
  intro a' T' p hget hp
  unfold get_aliases_for_product
  by_cases hc : c = "product_aliases"
  · subst hc
    rw [get_category_add_alias] at hget
    rw [add_alias_productToAliases_pa]
    by_cases ha : a' = lowerStr aliasKey
    · subst ha
      rw [alistGet?_insert_self] at hget
      injection hget with hT
      subst hT
      exact revGet_revAddAll_self _ _ _ hp
    · rw [alistGet?_insert_ne ha] at hget
      exact revGet_revAddAll_mono _ _ _ (h a' T' p hget hp)
  · have hne : ("product_aliases" : String) ≠ c := fun hh => hc hh.symm
    have hcfg :
        get_category (add_alias st c aliasKey T) "product_aliases"
          = get_category st "product_aliases" := by
      simp only [get_category, add_alias]
      rw [alistGet?_insert_ne hne]
    rw [hcfg] at hget
    rw [add_alias_productToAliases_ne st hc]
    exact h a' T' p hget hp

/-- C4 amended: after any sequence of `load` and `add_alias` operations,
the forward direction of the reverse-index invariant holds — whenever
product `p` is in the target list stored for alias `a` in the
`product_aliases` category, `a` is in `get_aliases_for_product(p)`. The
converse direction fails in general (see the counterexample), because
overwriting an alias never removes its stale reverse-index entries. -/
theorem reverse_index_forward_consistent (cfg : AliasConfig) (ops : List Op) :
    RevComplete (applyOps (initState cfg) ops) := by
  suffices h : ∀ (st : MapperState), RevComplete st → RevComplete (applyOps st ops) from
    h _ (revComplete_initState cfg)
  induction ops with
  | nil => intro st hst; exact hst
  | cons op rest ih =>
      intro st hst
      obtain ⟨c, a, T⟩ := op
      exact ih _ (revComplete_add_alias hst c a T)

/-- Witness for C4: the forward invariant instantiated on a small
concrete history — the freshly added alias `py` is found in the reverse
index for its target. -/
theorem reverse_index_forward_consistent_witness :
    "py" ∈ get_aliases_for_product
      (applyOps (initState [("product_aliases", [("js", ["JavaScript"])])])
        [Op.add "product_aliases" "py" ["Python-SDK"]]) "Python-SDK" :=
  reverse_index_forward_consistent [("product_aliases", [("js", ["JavaScript"])])]
    [Op.add "product_aliases" "py" ["Python-SDK"]] "py" ["Python-SDK"] "Python-SDK"
    (by decide) (by decide)

/-- Counterexample for C4 as stated: after adding alias `x` for product
`P` and then overwriting it with target `Q`, the alias `x` still sits in
the reverse index for `P` although `P` is no longer in the target list
stored for `x`, so the claimed equivalence is false. -/
theorem reverse_index_stale_cex :
    "x" ∈ get_aliases_for_product overwrittenState "P"
    ∧ alistGet? "x" (get_category overwrittenState "product_aliases") = some ["Q"]
    ∧ (["Q"] : List String).contains "P" = false := by
  refine ⟨?_, ?_, ?_⟩ <;> decide

theorem mem_catCollect_none (ql : String) :
    ∀ (cm : CategoryMap) {aliasKey t : String} {T : List String},
      (aliasKey, T) ∈ cm → strContains ql (lowerStr aliasKey) = true → t ∈ T →
      t ∈ catCollect ql none cm := by
  intro cm
  induction cm with
  | nil => intro a t T h _ _; simp at h
  | cons e rest ih =>
      obtain ⟨a0, T0⟩ := e
      intro a t T hmem hcon ht
      simp only [catCollect, List.mem_append]
      rcases List.mem_cons.mp hmem with h | h
      · obtain ⟨h1, h2⟩ := Prod.mk.inj h
        subst h1
        subst h2
        left
        rw [if_pos hcon]
        simp [List.mem_filter, ht]
      · right
        exact ih h hcon ht

/-- C1 amended: matching is reflexive — for every alias key `a` stored in
category `c` with target list `T`, every target of `T` is in
`find_matches_by_category(a, c)`. The result is only a superset of `T` in
general: any other alias key that happens to be a substring of `a`
contributes its targets as well (see the counterexample). -/
theorem find_matches_reflexive_superset (cfg : AliasConfig) (c aliasKey : String)
    (T : List String) (t : String)
    (hstored : alistGet? aliasKey ((alistGet? c cfg).getD []) = some T) (ht : t ∈ T) :
    t ∈ find_matches_by_category aliasKey c cfg none := by
  unfold find_matches_by_category
  rw [List.mem_dedup]
  exact mem_catCollect_none _ _ (alistGet?_mem hstored) (strContains_self _) ht

/-- Witness for C1: alias `win` stored with target `Windows` resolves to a
result containing `Windows`. -/
theorem find_matches_reflexive_superset_witness :
    "Windows" ∈ find_matches_by_category "win" "os_aliases" demoOsConfig none :=
  find_matches_reflexive_superset demoOsConfig "os_aliases" "win" ["Windows"] "Windows"
    (by decide) (by decide)

/-- Counterexample for C1 as stated: in the hardcoded product category,
alias `nodejs` is stored with the single target `JavaScript (Node.JS)`,
yet `find_matches("nodejs", "product")` also contains `JavaScript`,
because the distinct aliases `js` and `node` are substrings of `nodejs`;
the result is not exactly the stored target list. -/
theorem find_matches_exactness_cex :
    ("nodejs", PyTargets.strs ["JavaScript (Node.JS)"]) ∈ enhancedAliasMap "product"
    ∧ (enhanced_find_matches "nodejs" "product").contains "JavaScript" = true
    ∧ (["JavaScript (Node.JS)"] : List String).contains "JavaScript" = false := by
  refine ⟨?_, ?_, ?_⟩ <;> decide

theorem mem_paCollect_subset (ql : String) (avail : List String) :
    ∀ (cm : CategoryMap) {x : String}, x ∈ paCollect ql avail cm → x ∈ avail := by
  intro cm
  induction cm with
  | nil => intro x h; simp [paCollect] at h
  | cons e rest ih =>
      obtain ⟨a0, ps⟩ := e
      intro x h
      simp only [paCollect, List.mem_append] at h
      rcases h with h | h
      · by_cases hcon : strContains ql (lowerStr a0) = true
        · rw [if_pos hcon] at h
          exact of_decide_eq_true (List.mem_filter.mp h).2
        · rw [if_neg hcon] at h
          simp at h
      · exact ih h

/-- C5: with a non-empty available-products list, `find_products_by_query`
returns exactly the available products whose names occur
case-insensitively in the text whenever that set is non-empty; only when
it is empty does the alias phase run, and that phase admits only members
of the available-products list. -/
theorem find_products_direct_precedence (queryText : String) (avail : List String)
    (cfg : AliasConfig) (_hne : avail ≠ []) :
    ((avail.filter (fun p => strContains (lowerStr queryText) (lowerStr p))) ≠ [] →
      ∀ x, x ∈ find_products_by_query queryText avail cfg ↔
        (x ∈ avail ∧ strContains (lowerStr queryText) (lowerStr x) = true))
    ∧ ((avail.filter (fun p => strContains (lowerStr queryText) (lowerStr p))) = [] →
      ∀ x, x ∈ find_products_by_query queryText avail cfg → x ∈ avail) := by
  constructor
  · intro hd x
    simp only [find_products_by_query]
    rw [if_pos hd]
    simp [List.mem_dedup, List.mem_filter]
  · intro hd x hx
    simp only [find_products_by_query] at hx
    rw [if_neg (fun hcon => hcon hd)] at hx
    rw [List.mem_dedup] at hx
    exact mem_paCollect_subset _ _ _ hx

/-- Witness for C5: a direct mention of `Python-SDK` is found in phase 1. -/
theorem find_products_direct_precedence_witness :
    "Python-SDK" ∈ find_products_by_query "Python-SDK usage" ["Python-SDK"] [] :=
  (((find_products_direct_precedence "Python-SDK usage" ["Python-SDK"] [] (by decide)).1
    (by decide)) "Python-SDK").mpr (by decide)

theorem fallback_ok_of_ne_nil (tables : List TableInfo) (q : String) (hT : tables ≠ []) :
    ∃ r, fallback_rule_based_parsing tables q = Except.ok r
      ∧ r.fallback_used = true ∧ r.ai_parsed = false := by
  cases tables with
  | nil => exact absurd rfl hT
  | cons t0 rest => exact ⟨_, rfl, rfl, rfl⟩

/-- C8 amended: when at least one enabled table exists, any failed AI
attempt (exception, error field, or confidence below 0.7) makes
`parse_user_query` return the rule-based fallback result, which carries
`fallback_used == True` and `ai_parsed == False`; an AI result is passed
through only with no error field and confidence at least 0.7. With zero
enabled tables the fallback instead surfaces its own error dict, which
carries neither flag (see the counterexample). -/
theorem parse_user_query_fallback_gating (ai : AIAttempt) (tables : List TableInfo)
    (q : String) (hT : tables ≠ []) :
    (aiFails ai → ∃ r, parse_user_query true ai tables q = ParseOutcome.fallbackOk r
        ∧ fallback_rule_based_parsing tables q = Except.ok r
        ∧ r.fallback_used = true ∧ r.ai_parsed = false)
    ∧ (∀ e c, parse_user_query true ai tables q = ParseOutcome.aiResult e c →
        e = false ∧ (7 : ℚ) / 10 ≤ c.getD 0) := by
  obtain ⟨R, hR, hRu, hRa⟩ := fallback_ok_of_ne_nil tables q hT
  constructor
  · intro hfail
    refine ⟨R, ?_, hR, hRu, hRa⟩
    cases ai with
    | raised => simp [parse_user_query, hR]
    | returned hasError conf =>
        have hcond : ¬(hasError = false ∧ (7 : ℚ) / 10 ≤ conf.getD 0) := by
          rcases hfail with h | h
          · rintro ⟨h1, _⟩
            rw [h] at h1
            cases h1
          · rintro ⟨_, h2⟩
            exact absurd h2 (not_le.mpr h)
        simp [parse_user_query, hR, hcond]
  · intro e c hpe
    cases ai with
    | raised => simp [parse_user_query, hR] at hpe
    | returned hasError conf =>
        by_cases hcond : hasError = false ∧ (7 : ℚ) / 10 ≤ conf.getD 0
        · simp only [parse_user_query, hR, if_pos hcond] at hpe
          injection hpe with h1 h2
          subst h1
          subst h2
          exact hcond
        · simp [parse_user_query, hR, hcond] at hpe

/-- Witness for C8: a raised AI attempt on a one-table schema yields the
fallback dict with the provenance flags set. -/
theorem parse_user_query_fallback_gating_witness :
    parse_user_query true AIAttempt.raised demoTablesParse "show product usage"
      = ParseOutcome.fallbackOk { table_name := "ProductUsage",
                                  columns := ["Month", "Product", "RequestCount"],
                                  where_clause := "1=1", order_clause := "",
                                  limit_clause := "", ai_parsed := false,
                                  fallback_used := true } := by
  obtain ⟨r, h1, h2, h3, h4⟩ :=
    (parse_user_query_fallback_gating AIAttempt.raised demoTablesParse
      "show product usage" (by decide)).1 trivial
  have hcomp : fallback_rule_based_parsing demoTablesParse "show product usage"
      = Except.ok { table_name := "ProductUsage",
                    columns := ["Month", "Product", "RequestCount"],
                    where_clause := "1=1", order_clause := "", limit_clause := "",
                    ai_parsed := false, fallback_used := true } := rfl
  rw [hcomp] at h2
  injection h2 with hr
  rw [hr]
  exact h1

/-- Counterexample for C8 as stated: with zero enabled tables, a failed
AI attempt yields the fallback's error dict, which does not carry
`fallback_used == True` and `ai_parsed == False`. -/
theorem parse_user_query_no_tables_cex :
    parse_user_query true AIAttempt.raised [] "top 3 products"
      = ParseOutcome.fallbackError "No enabled tables found"
    ∧ carries_fallback_flags (parse_user_query true AIAttempt.raised [] "top 3 products")
        = false := by
  constructor <;> rfl

/-- C9 amended: the rule-based fallback's WHERE clause is the hardcoded
literal `Month LIKE '2025-08%'` exactly when the lowercased text contains
`"this month"`, and the tautology `1=1` otherwise; it is a fixed
year-month constant, not derived from the date at the time of the call
(see the counterexample). -/
theorem fallback_where_clause_hardcoded (tables : List TableInfo) (q : String)
    (r : FallbackResult) (h : fallback_rule_based_parsing tables q = Except.ok r) :
    r.where_clause =
      if strContains (lowerStr q) "this month" then "Month LIKE \x272025-08%\x27"
      else "1=1" := by
  cases tables with
  | nil => simp [fallback_rule_based_parsing] at h
  | cons t0 rest =>
      simp only [fallback_rule_based_parsing] at h
      injection h with hr
      rw [← hr]

/-- Witness for C9: instance of the amended statement on a concrete
schema and question. -/
theorem fallback_where_clause_hardcoded_witness :
    FallbackResult.where_clause { table_name := "UsageSummary",
                                  columns := ["Month", "Product", "RequestCount"],
                                  where_clause := "Month LIKE \x272025-08%\x27",
                                  order_clause := "", limit_clause := "",
                                  ai_parsed := false, fallback_used := true }
      = if strContains (lowerStr "usage this month") "this month"
        then "Month LIKE \x272025-08%\x27" else "1=1" :=
  fallback_where_clause_hardcoded demoTablesWhere "usage this month" _ rfl

/-- Counterexample for C9 as stated: on 2026-10, a call mentioning "this
month" still produces the 2025-08 literal, not the clause built from the
current date. -/
theorem fallback_where_clause_date_cex :
    fallback_rule_based_parsing demoTablesWhere "usage this month"
      = Except.ok { table_name := "UsageSummary",
                    columns := ["Month", "Product", "RequestCount"],
                    where_clause := "Month LIKE \x272025-08%\x27",
                    order_clause := "", limit_clause := "",
                    ai_parsed := false, fallback_used := true }
    ∧ rule_where_spec 2026 10 "usage this month" = "Month LIKE \x272026-10%\x27"
    ∧ decide (("Month LIKE \x272025-08%\x27" : String) = "Month LIKE \x272026-10%\x27")
        = false := by
  refine ⟨rfl, ?_, by decide⟩
  decide

theorem mem_fmCollect (tl : String) :
    ∀ (l : List (String × PyTargets)) (x : String),
      x ∈ fmCollect tl l ↔
        ∃ aliasKey tg, (aliasKey, tg) ∈ l ∧ strContains tl aliasKey = true
          ∧ x ∈ pyTargetsList tg := by
  intro l
  induction l with
  | nil => intro x; simp [fmCollect]
  | cons e rest ih =>
      obtain ⟨a0, tg0⟩ := e
      intro x
      simp only [fmCollect, List.mem_append, ih]
      constructor
      · rintro (hx | ⟨a, tg, hmem, hcon, hx⟩)
        · by_cases hcon : strContains tl a0 = true
          · rw [if_pos hcon] at hx
            exact ⟨a0, tg0, List.mem_cons_self _ _, hcon, hx⟩
          · rw [if_neg hcon] at hx
            simp at hx
        · exact ⟨a, tg, List.mem_cons_of_mem _ hmem, hcon, hx⟩
      · rintro ⟨a, tg, hmem, hcon, hx⟩
        rcases List.mem_cons.mp hmem with h | h
        · obtain ⟨h1, h2⟩ := Prod.mk.inj h
          subst h1
          subst h2
          left
          rw [if_pos hcon]
          exact hx
        · right
          exact ⟨a, tg, h, hcon, hx⟩

/-- C10: in `EnhancedAliasMapper`, for a category all of whose alias
values are bare strings (as the time and quantity categories are),
`find_matches` returns the individual characters of each matched value
string — the string target is extended element-wise into the match
list — rather than the value itself. -/
theorem enhanced_find_matches_str_chars (category text x : String)
    (h : (enhancedAliasMap category).all is_str_target = true) :
    x ∈ enhanced_find_matches text category ↔
      ∃ aliasKey s, (aliasKey, PyTargets.str s) ∈ enhancedAliasMap category
        ∧ strContains (lowerStr text) aliasKey = true
        ∧ ∃ ch ∈ s.data, x = Char.toString ch := by
  unfold enhanced_find_matches
  rw [List.mem_dedup, mem_fmCollect]
  constructor
  · rintro ⟨a, tg, hmem, hcon, hx⟩
    have htg := List.all_eq_true.mp h _ hmem
    cases tg with
    | strs l => simp [is_str_target] at htg
    | str s =>
        refine ⟨a, s, hmem, hcon, ?_⟩
        simpa [pyTargetsList, eq_comm] using hx
  · rintro ⟨a, s, hmem, hcon, ch, hch, rfl⟩
    refine ⟨a, PyTargets.str s, hmem, hcon, ?_⟩
    simpa [pyTargetsList] using ⟨ch, hch, rfl⟩

/-- Witness for C10: every value of the time category is a bare string,
and matching `today` yields the character `2` of the value `2025-08-28`. -/
theorem enhanced_find_matches_str_chars_witness :
    (enhancedAliasMap "time").all is_str_target = true
    ∧ "2" ∈ enhanced_find_matches "today" "time" :=
  ⟨by decide,
    (enhanced_find_matches_str_chars "time" "today" "2" (by decide)).mpr
      ⟨"today", "2025-08-28", by decide, by decide, '2', by decide, rfl⟩⟩
